import Mathlib

/-!
Shallow embedding of `src/config.rs` (mizumochi): the `Speed` type with its
`FromStr` parser and `Display` formatter, the `Operation` tag, and the
`Config` aggregate with its default and `Display`.

Strings are modelled as `List Char` (Rust `&str` / `String`); the host
integer type `usize` is modelled as `Nat` together with the 64-bit bound
`USIZE_MAX`, with every overflow check written out explicitly, exactly as
the Rust code performs it (`checked_mul`, and the per-digit overflow check
inside `usize::from_str`).
-/

/-- Rust `usize::MAX` on the 64-bit host assumed by the spec. -/
def USIZE_MAX : Nat := 2 ^ 64 - 1

/-- `enum Speed { Bps(usize), PassThrough }` from `config.rs`. -/
inductive Speed where
  | Bps : Nat → Speed
  | PassThrough : Speed
deriving DecidableEq, Repr

/-- `enum Operation { Read, Write }` from `config.rs`. -/
inductive Operation where
  | Read : Operation
  | Write : Operation
deriving DecidableEq, Repr

/-- `struct Config` from `config.rs`; the two `Duration` fields are held in
whole seconds, which is how the code constructs (`Duration::from_secs`) and
displays (`as_secs`) them. -/
structure Config where
  duration : Nat
  frequency : Nat
  operations : List Operation
  speed : Speed
deriving DecidableEq, Repr

instance : DecidableEq (Except String Speed) := fun a b =>
  match a, b with
  | .ok x, .ok y =>
    if h : x = y then isTrue (by rw [h]) else
      isFalse (fun he => h (Except.ok.inj he))
  | .error x, .error y =>
    if h : x = y then isTrue (by rw [h]) else
      isFalse (fun he => h (Except.error.inj he))
  | .ok _, .error _ => isFalse (fun he => Except.noConfusion he)
  | .error _, .ok _ => isFalse (fun he => Except.noConfusion he)

/-- Decimal digits of `n`, most significant first: Rust's `{}` formatting of
an unsigned integer. Fuel-based so that the kernel can evaluate it; the fuel
`n + 1` always suffices since the argument shrinks by a factor of 10. -/
def natToDecimalAux : Nat → Nat → List Char
  | 0, _ => []
  | fuel + 1, n =>
    if n < 10 then [Nat.digitChar n]
    else natToDecimalAux fuel (n / 10) ++ [Nat.digitChar (n % 10)]

/-- Decimal rendering of a natural number, e.g. `1024 ↦ "1024"`. -/
def natToDecimal (n : Nat) : List Char := natToDecimalAux (n + 1) n

/-- One step of Rust `usize::from_str`'s digit loop: each character must be
an ASCII digit (`to_digit(10)`), and the running value is updated with a
checked multiply-add — exceeding `usize::MAX` is a `PosOverflow` error,
whose `description()` is the string recorded here. -/
def parseUsizeCore : List Char → Nat → Except String Nat
  | [], acc => .ok acc
  | c :: cs, acc =>
    if c.isDigit then
      let v := acc * 10 + (c.toNat - '0'.toNat)
      if v ≤ USIZE_MAX then parseUsizeCore cs v
      else .error "number too large to fit in target type"
    else .error "invalid digit found in string"

/-- Rust `str::parse::<usize>` (i.e. `usize::from_str`): an empty string is
an `Empty` error, a single optional leading `'+'` sign is accepted (a bare
sign, or any `'-'`, is `InvalidDigit` for an unsigned type), then the digit
loop of `parseUsizeCore` runs. Error strings are the `description()` texts
of the corresponding `ParseIntError` kinds. -/
def parseUsize (cs : List Char) : Except String Nat :=
  match cs with
  | [] => .error "cannot parse integer from empty string"
  | c :: rest =>
    if c = '+' then
      if rest = [] then .error "invalid digit found in string"
      else parseUsizeCore rest 0
    else if c = '-' then .error "invalid digit found in string"
    else parseUsizeCore cs 0

/-- The scale-suffix match arms of `Speed::from_str`: `'K' => 1 << 10`,
`'M' => 1 << 20`, `'G' => 1 << 30`; any other character falls through
(`none` here, the popped character is pushed back). -/
def scaleOf (c : Char) : Option Nat :=
  if c = 'K' then some (2 ^ 10)
  else if c = 'M' then some (2 ^ 20)
  else if c = 'G' then some (2 ^ 30)
  else none

/-- Rust `s.ends_with("Bps")`: the last three characters are `B`, `p`, `s`.
(`"Bps"` is pure ASCII, so the byte-suffix test of the Rust code coincides
with this character-suffix test.) -/
def endsWithBps (s : List Char) : Bool :=
  s.drop (s.length - 3) = ['B', 'p', 's']

/-- The `ends_with("Bps")` branch of `Speed::from_str`, up to the numeric
value: `split_at(len - 3)` keeps the body before the suffix, `pop` removes
its last character (`None` on an empty body gives the "Invalid speed"
error), a `K`/`M`/`G` character selects a scale while any other character
is pushed back with scale 1, the remainder goes through `usize::from_str`,
and the final `checked_mul(scale)` turns overflow into the "overflow"
error. `parseScaled` is the shared tail of that branch: `usize::from_str`
on the remainder, then `checked_mul(scale).ok_or("overflow")`. -/
def parseScaled (rem : List Char) (scale : Nat) : Except String Nat :=
  match parseUsize rem with
  | .error e => .error e
  | .ok v =>
    if v * scale ≤ USIZE_MAX then .ok (v * scale) else .error "overflow"

/-- The `ends_with("Bps")` branch of `Speed::from_str` (see `parseScaled`). -/
def parseBpsPath (s : List Char) : Except String Nat :=
  let n := s.take (s.length - 3)
  match n.getLast? with
  | none => .error "Invalid speed"
  | some c =>
    match scaleOf c with
    | some k => parseScaled n.dropLast k
    | none => parseScaled (n.dropLast ++ [c]) 1

/-- `impl FromStr for Speed` from `config.rs`: the literal `"pass_through"`
is `PassThrough`; a string ending in `"Bps"` goes through `parseBpsPath`;
anything else is parsed whole as a `usize`. Both non-`pass_through`
branches wrap their numeric result in `Speed::Bps`. -/
def Speed.from_str (s : List Char) : Except String Speed :=
  if s = "pass_through".data then .ok .PassThrough
  else if endsWithBps s then (parseBpsPath s).map .Bps
  else (parseUsize s).map .Bps

/-- Strip trailing decimal zero digits from a fraction value `v` that is
written with `cnt` digits, returning the value and digit count that remain.
Fuel-based (the fuel is the digit count, which bounds the number of
trailing zeros of a nonzero value). -/
def stripZerosAux : Nat → Nat → Nat → Nat × Nat
  | 0, v, cnt => (v, cnt)
  | fuel + 1, v, cnt =>
    if v % 10 = 0 then stripZerosAux fuel (v / 10) (cnt - 1) else (v, cnt)

/-- Rust's `{}` rendering of `bps as f64 / (1 << k) as f64` in
`Speed::Display`, modelled as the exact finite decimal expansion of the
dyadic rational `bps / 2^k` with no trailing zeros and no decimal point for
a whole number. For every concrete value this development evaluates it on
(`bps < 2^20`, so the quotient carries at most 14 significant digits), the
f64 division is exact and this exact expansion is the unique shortest
round-tripping decimal, i.e. exactly what Rust prints; for much larger
`bps` (at or beyond 2^53, or quotients needing more than 17 significant
digits) Rust's float pipeline may print a rounded string instead, and no
theorem below asserts the digits of this rendering in that range. -/
def renderDyadic (bps k : Nat) : List Char :=
  let ip := bps / 2 ^ k
  let fr := bps % 2 ^ k
  if fr = 0 then natToDecimal ip
  else
    let d := fr * 5 ^ k
    let vc := stripZerosAux k d k
    let ds := natToDecimal vc.1
    natToDecimal ip ++ '.' :: (List.replicate (vc.2 - ds.length) '0' ++ ds)

/-- `impl fmt::Display for Speed` from `config.rs`: a guard ladder with
strict `<` comparisons, first match wins; the three scaled branches divide
by the power of two as `f64` and append the unit suffix. -/
def Speed.format : Speed → List Char
  | .Bps bps =>
    if bps < 2 ^ 10 then natToDecimal bps ++ "Bps".data
    else if bps < 2 ^ 20 then renderDyadic bps 10 ++ "KBps".data
    else if bps < 2 ^ 30 then renderDyadic bps 20 ++ "MBps".data
    else renderDyadic bps 30 ++ "GBps".data
  | .PassThrough => "PassThrough".data

/-- `impl fmt::Display for Operation` from `config.rs`. -/
def Operation.format : Operation → List Char
  | .Read => "Read".data
  | .Write => "Write".data

/-- `impl Default for Config` from `config.rs`: ten minutes, thirty
minutes, both operations, no throughput cap. -/
def Config.default : Config :=
  { duration := 10 * 60
  , frequency := 30 * 60
  , operations := [.Read, .Write]
  , speed := .PassThrough }

/-- `impl fmt::Display for Config` from `config.rs`: whole seconds for the
two durations, the operations' own texts joined by `":"` (the fold-and-join
of the source), and the speed's text, inside the literal frame
`Config {...}`. -/
def Config.display (c : Config) : List Char :=
  "Config \x7bDuration: ".data ++ natToDecimal c.duration ++
    "sec, Frequency: ".data ++ natToDecimal c.frequency ++
    "sec, Operations: ".data ++
    (List.intercalate [':'] (c.operations.map Operation.format)) ++
    ", Speed: ".data ++ Speed.format c.speed ++ ['\x7d']

/-- `Except.isOk = false`: the result is an `Err`. -/
def isErr : Except String Speed → Bool
  | .error _ => true
  | .ok _ => false

/-- The numeric remainder that `Speed.from_str` hands to `usize::from_str`,
when there is one: `none` for `"pass_through"` and for a `"Bps"`-suffixed
string with an empty body; otherwise the body after suffix and scale-letter
stripping (with a non-scale final character pushed back), or the whole
string when there is no `"Bps"` suffix. -/
def numericRemainder (s : List Char) : Option (List Char) :=
  if s = "pass_through".data then none
  else if endsWithBps s then
    let n := s.take (s.length - 3)
    match n.getLast? with
    | none => none
    | some c =>
      some (match scaleOf c with
        | some _ => n.dropLast
        | none => n.dropLast ++ [c])
  else some s

/-- A single leading `'+'` sign, which `usize::from_str` accepts, removed. -/
def dropLeadingPlus : List Char → List Char
  | [] => []
  | c :: rest => if c = '+' then rest else c :: rest

/-- The number denoted by a list of decimal digit characters, most
significant first, starting from accumulator `a`. -/
def valFrom (a : Nat) (cs : List Char) : Nat :=
  cs.foldl (fun x c => x * 10 + (c.toNat - '0'.toNat)) a

theorem valFrom_nil (a : Nat) : valFrom a [] = a := rfl

theorem valFrom_cons (a : Nat) (c : Char) (cs : List Char) :
    valFrom a (c :: cs) = valFrom (a * 10 + (c.toNat - '0'.toNat)) cs := rfl

theorem valFrom_acc (cs : List Char) :
    ∀ a : Nat, valFrom a cs = a * 10 ^ cs.length + valFrom 0 cs := by
  induction cs with
  | nil => intro a; simp [valFrom_nil]
  | cons c cs ih =>
    intro a
    rw [valFrom_cons, valFrom_cons, ih, ih (0 * 10 + (c.toNat - '0'.toNat))]
    simp [List.length_cons]
    ring

theorem valFrom_concat (a : Nat) (cs : List Char) (c : Char) :
    valFrom a (cs ++ [c]) = valFrom a cs * 10 + (c.toNat - '0'.toNat) := by
  simp [valFrom, List.foldl_append]

theorem valFrom_ge (a : Nat) (cs : List Char) : a ≤ valFrom a cs := by
  rw [valFrom_acc]
  calc a = a * 1 := (Nat.mul_one a).symm
    _ ≤ a * 10 ^ cs.length := Nat.mul_le_mul_left a (Nat.one_le_two_pow.trans
        (Nat.pow_le_pow_left (by norm_num) cs.length))
    _ ≤ a * 10 ^ cs.length + valFrom 0 cs := Nat.le_add_right _ _

/-- If the digit loop succeeds, every character it consumed was a digit. -/
theorem parseUsizeCore_ok_digits (cs : List Char) :
    ∀ acc v, parseUsizeCore cs acc = .ok v → ∀ c ∈ cs, c.isDigit = true := by
  induction cs with
  | nil => intro acc v _ c hc; exact absurd hc (List.not_mem_nil c)
  | cons c cs ih =>
    intro acc v h d hd
    rw [parseUsizeCore] at h
    by_cases hdig : c.isDigit
    · rw [if_pos hdig] at h
      rcases List.mem_cons.mp hd with rfl | hmem
      · exact hdig
      · by_cases hle : acc * 10 + (c.toNat - '0'.toNat) ≤ USIZE_MAX
        · rw [if_pos hle] at h
          exact ih _ _ h d hmem
        · rw [if_neg hle] at h
          exact absurd h (by simp)
    · rw [if_neg hdig] at h
      exact absurd h (by simp)

/-- A successful digit loop never returns a value above `usize::MAX`. -/
theorem parseUsizeCore_le (cs : List Char) :
    ∀ acc v, acc ≤ USIZE_MAX → parseUsizeCore cs acc = .ok v →
      v ≤ USIZE_MAX := by
  induction cs with
  | nil =>
    intro acc v hacc h
    rw [parseUsizeCore] at h
    cases h
    exact hacc
  | cons c cs ih =>
    intro acc v hacc h
    rw [parseUsizeCore] at h
    by_cases hdig : c.isDigit
    · rw [if_pos hdig] at h
      by_cases hle : acc * 10 + (c.toNat - '0'.toNat) ≤ USIZE_MAX
      · rw [if_pos hle] at h
        exact ih _ _ hle h
      · rw [if_neg hle] at h
        exact absurd h (by simp)
    · rw [if_neg hdig] at h
      exact absurd h (by simp)

/-- On an all-digit string the digit loop computes exactly the denoted
value, failing precisely when that value exceeds `usize::MAX`. -/
theorem parseUsizeCore_spec (cs : List Char) :
    ∀ acc, (∀ c ∈ cs, c.isDigit = true) → acc ≤ USIZE_MAX →
      parseUsizeCore cs acc =
        if valFrom acc cs ≤ USIZE_MAX then .ok (valFrom acc cs)
        else .error "number too large to fit in target type" := by
  induction cs with
  | nil =>
    intro acc _ hacc
    rw [parseUsizeCore, valFrom_nil, if_pos hacc]
  | cons c cs ih =>
    intro acc hdig hacc
    have hc : c.isDigit = true := hdig c (List.mem_cons_self c cs)
    rw [parseUsizeCore, if_pos hc, valFrom_cons]
    by_cases hle : acc * 10 + (c.toNat - '0'.toNat) ≤ USIZE_MAX
    · rw [if_pos hle]
      exact ih _ (fun d hd => hdig d (List.mem_cons_of_mem c hd)) hle
    · rw [if_neg hle, if_neg]
      intro habs
      exact hle ((valFrom_ge _ cs).trans habs)

theorem natToDecimalAux_succ (fuel n : Nat) :
    natToDecimalAux (fuel + 1) n =
      if n < 10 then [Nat.digitChar n]
      else natToDecimalAux fuel (n / 10) ++ [Nat.digitChar (n % 10)] := rfl

theorem digitChar_isDigit (d : Nat) (h : d < 10) :
    (Nat.digitChar d).isDigit = true ∧ (Nat.digitChar d).toNat - '0'.toNat = d := by
  interval_cases d <;> simp [Nat.digitChar]

/-- The decimal rendering of `n` is a nonempty all-digit list denoting `n`,
for every sufficient fuel. -/
theorem natToDecimalAux_spec :
    ∀ fuel n, n < 10 ^ (fuel + 1) →
      (∀ c ∈ natToDecimalAux (fuel + 1) n, c.isDigit = true) ∧
      valFrom 0 (natToDecimalAux (fuel + 1) n) = n ∧
      natToDecimalAux (fuel + 1) n ≠ [] := by
  intro fuel
  induction fuel with
  | zero =>
    intro n hn
    have h10 : n < 10 := by simpa using hn
    rw [natToDecimalAux, if_pos h10]
    refine ⟨?_, ?_, by simp⟩
    · intro c hc
      rw [List.mem_singleton] at hc
      subst hc
      exact (digitChar_isDigit n h10).1
    · rw [valFrom_cons, valFrom_nil, (digitChar_isDigit n h10).2]
      simp
  | succ fuel ih =>
    intro n hn
    by_cases h10 : n < 10
    · rw [natToDecimalAux, if_pos h10]
      refine ⟨?_, ?_, by simp⟩
      · intro c hc
        rw [List.mem_singleton] at hc
        subst hc
        exact (digitChar_isDigit n h10).1
      · rw [valFrom_cons, valFrom_nil, (digitChar_isDigit n h10).2]
        simp
    · rw [natToDecimalAux, if_neg h10]
      have hdiv : n / 10 < 10 ^ (fuel + 1) := by
        rw [Nat.div_lt_iff_lt_mul (by norm_num : 0 < 10)]
        calc n < 10 ^ (fuel + 1 + 1) := hn
          _ = 10 ^ (fuel + 1) * 10 := by ring
      obtain ⟨hd, hv, _⟩ := ih (n / 10) hdiv
      refine ⟨?_, ?_, by simp⟩
      · intro c hc
        rcases List.mem_append.mp hc with hc | hc
        · exact hd c hc
        · rw [List.mem_singleton] at hc
          subst hc
          exact (digitChar_isDigit _ (Nat.mod_lt n (by norm_num))).1
      · rw [valFrom_concat, hv,
          (digitChar_isDigit _ (Nat.mod_lt n (by norm_num))).2]
        omega

/-- Fuel irrelevance: any two sufficient fuels render the same digits. -/
theorem natToDecimalAux_fuel :
    ∀ f1 f2 n, n < 10 ^ (f1 + 1) → n < 10 ^ (f2 + 1) →
      natToDecimalAux (f1 + 1) n = natToDecimalAux (f2 + 1) n := by
  intro f1
  induction f1 with
  | zero =>
    intro f2 n h1 h2
    have h10 : n < 10 := by simpa using h1
    rw [natToDecimalAux_succ, if_pos h10, natToDecimalAux_succ, if_pos h10]
  | succ f1 ih =>
    intro f2 n h1 h2
    by_cases h10 : n < 10
    · rw [natToDecimalAux_succ, if_pos h10, natToDecimalAux_succ, if_pos h10]
    · cases f2 with
      | zero => exact absurd (by simpa using h2) h10
      | succ f2 =>
        have hdiv1 : n / 10 < 10 ^ (f1 + 1) := by
          rw [Nat.div_lt_iff_lt_mul (by norm_num : 0 < 10)]
          calc n < 10 ^ (f1 + 1 + 1) := h1
            _ = 10 ^ (f1 + 1) * 10 := by ring
        have hdiv2 : n / 10 < 10 ^ (f2 + 1) := by
          rw [Nat.div_lt_iff_lt_mul (by norm_num : 0 < 10)]
          calc n < 10 ^ (f2 + 1 + 1) := h2
            _ = 10 ^ (f2 + 1) * 10 := by ring
        rw [natToDecimalAux_succ, if_neg h10]
        conv_rhs => rw [natToDecimalAux_succ]
        rw [if_neg h10, ih f2 (n / 10) hdiv1 hdiv2]

theorem lt_ten_pow_self (n : Nat) : n < 10 ^ (n + 1) :=
  calc n < 2 ^ n := Nat.lt_two_pow n
    _ ≤ 10 ^ n := Nat.pow_le_pow_left (by norm_num) n
    _ ≤ 10 ^ (n + 1) := Nat.pow_le_pow_right (by norm_num) (Nat.le_succ n)

theorem natToDecimal_digits (n : Nat) :
    ∀ c ∈ natToDecimal n, c.isDigit = true :=
  (natToDecimalAux_spec n n (lt_ten_pow_self n)).1

theorem natToDecimal_val (n : Nat) : valFrom 0 (natToDecimal n) = n :=
  (natToDecimalAux_spec n n (lt_ten_pow_self n)).2.1

theorem natToDecimal_ne_nil (n : Nat) : natToDecimal n ≠ [] :=
  (natToDecimalAux_spec n n (lt_ten_pow_self n)).2.2

/-- `usize::from_str` inverts decimal rendering, failing exactly on values
above `usize::MAX`. -/
theorem parseUsize_natToDecimal (n : Nat) :
    parseUsize (natToDecimal n) =
      if n ≤ USIZE_MAX then .ok n
      else .error "number too large to fit in target type" := by
  rcases hsplit : natToDecimal n with _ | ⟨c, rest⟩
  · exact absurd hsplit (natToDecimal_ne_nil n)
  · have hc : c.isDigit = true := by
      refine natToDecimal_digits n c ?_
      rw [hsplit]
      exact List.mem_cons_self c rest
    have hplus : ¬c = '+' := by
      intro h
      subst h
      simp [Char.isDigit] at hc
    have hminus : ¬c = '-' := by
      intro h
      subst h
      simp [Char.isDigit] at hc
    rw [parseUsize, if_neg hplus, if_neg hminus, ← hsplit,
      parseUsizeCore_spec (natToDecimal n) 0 (natToDecimal_digits n)
        (Nat.zero_le _), natToDecimal_val]

/-- No string ending in the `"Bps"` suffix is the `pass_through` literal. -/
theorem concat_bps_ne_pass (l : List Char) :
    ¬(l ++ "Bps".data = "pass_through".data) := by
  intro he
  have hlast := congrArg List.getLast? he
  rw [List.getLast?_append_of_ne_nil l (by decide)] at hlast
  exact absurd hlast (by decide)

theorem endsWithBps_concat (l : List Char) :
    endsWithBps (l ++ "Bps".data) = true := by
  have h1 : (l ++ "Bps".data).length - 3 = l.length := by
    simp [List.length_append]
  simp only [endsWithBps, h1, List.drop_left, decide_eq_true_eq]

theorem take_before_bps (l : List Char) :
    (l ++ "Bps".data).take ((l ++ "Bps".data).length - 3) = l := by
  have h1 : (l ++ "Bps".data).length - 3 = l.length := by
    simp [List.length_append]
  rw [h1, List.take_left]

/-- On a string of the shape `<body>Bps`, the parser takes the suffix
branch and hands `<body>` to `parseBpsPath`. -/
theorem from_str_concat (l : List Char) :
    Speed.from_str (l ++ "Bps".data) =
      (parseBpsPath (l ++ "Bps".data)).map .Bps := by
  rw [Speed.from_str, if_neg (concat_bps_ne_pass l)]
  simp only [endsWithBps_concat l, if_true]

/-- `parseScaled` on the decimal rendering of `n`: success is exactly the
in-range product, with the two distinct failure messages of the code. -/
theorem parseScaled_decimal (n k : Nat) :
    parseScaled (natToDecimal n) k =
      if n ≤ USIZE_MAX then
        (if n * k ≤ USIZE_MAX then .ok (n * k) else .error "overflow")
      else .error "number too large to fit in target type" := by
  rw [parseScaled, parseUsize_natToDecimal]
  by_cases hn : n ≤ USIZE_MAX
  · rw [if_pos hn, if_pos hn]
  · rw [if_neg hn, if_neg hn]

/-- `Speed::from_str` on `<decimal digits of n><scale letter>Bps`. -/
theorem from_str_scaled (n k : Nat) (c : Char) (hk : scaleOf c = some k) :
    Speed.from_str (natToDecimal n ++ [c] ++ "Bps".data) =
      if n ≤ USIZE_MAX then
        (if n * k ≤ USIZE_MAX then .ok (.Bps (n * k)) else .error "overflow")
      else .error "number too large to fit in target type" := by
  rw [from_str_concat (natToDecimal n ++ [c])]
  simp only [parseBpsPath, take_before_bps (natToDecimal n ++ [c]),
    List.getLast?_concat, List.dropLast_concat, hk, parseScaled_decimal]
  by_cases hn : n ≤ USIZE_MAX
  · rw [if_pos hn, if_pos hn]
    by_cases hnk : n * k ≤ USIZE_MAX
    · rw [if_pos hnk, if_pos hnk]
      rfl
    · rw [if_neg hnk, if_neg hnk]
      rfl
  · rw [if_neg hn, if_neg hn]
    rfl

/-- A successful `parseUsize` never exceeds `usize::MAX`. -/
theorem parseUsize_ok_le (cs : List Char) (v : Nat)
    (h : parseUsize cs = .ok v) : v ≤ USIZE_MAX := by
  rcases cs with _ | ⟨c, rest⟩
  · exact absurd h (by simp [parseUsize])
  · rw [parseUsize] at h
    by_cases hp : c = '+'
    · rw [if_pos hp] at h
      by_cases hr : rest = []
      · rw [if_pos hr] at h
        exact absurd h (by simp)
      · rw [if_neg hr] at h
        exact parseUsizeCore_le rest 0 v (Nat.zero_le _) h
    · rw [if_neg hp] at h
      by_cases hm : c = '-'
      · rw [if_pos hm] at h
        exact absurd h (by simp)
      · rw [if_neg hm] at h
        exact parseUsizeCore_le _ 0 v (Nat.zero_le _) h

/-- A successful `parseScaled` never exceeds `usize::MAX`. -/
theorem parseScaled_ok_le (rem : List Char) (k v : Nat)
    (h : parseScaled rem k = .ok v) : v ≤ USIZE_MAX := by
  rcases hp : parseUsize rem with e | w
  · simp only [parseScaled, hp] at h
    exact absurd h (by simp)
  · simp only [parseScaled, hp] at h
    by_cases hle : w * k ≤ USIZE_MAX
    · rw [if_pos hle] at h
      cases h
      exact hle
    · rw [if_neg hle] at h
      exact absurd h (by simp)

/-- A successful `parseBpsPath` never exceeds `usize::MAX`. -/
theorem parseBpsPath_ok_le (s : List Char) (v : Nat)
    (h : parseBpsPath s = .ok v) : v ≤ USIZE_MAX := by
  rcases hl : (s.take (s.length - 3)).getLast? with _ | c
  · simp only [parseBpsPath, hl] at h
    exact absurd h (by simp)
  · rcases hs : scaleOf c with _ | k
    · simp only [parseBpsPath, hl, hs] at h
      exact parseScaled_ok_le _ _ _ h
    · simp only [parseBpsPath, hl, hs] at h
      exact parseScaled_ok_le _ _ _ h

/-- Every `Bps` value the parser returns is within `usize` range: no
wrapped, truncated or saturated product is ever stored. -/
theorem from_str_ok_le (s : List Char) (v : Nat)
    (h : Speed.from_str s = .ok (.Bps v)) : v ≤ USIZE_MAX := by
  rw [Speed.from_str] at h
  by_cases hpass : s = "pass_through".data
  · rw [if_pos hpass] at h
    exact absurd h (by simp)
  · rw [if_neg hpass] at h
    by_cases hb : endsWithBps s
    · rw [if_pos hb] at h
      rcases hp : parseBpsPath s with e | w
      · rw [hp] at h
        exact absurd h (by simp [Except.map])
      · rw [hp] at h
        have hw : w = v := by
          simpa [Except.map] using h
        exact hw ▸ parseBpsPath_ok_le s w hp
    · rw [if_neg hb] at h
      rcases hp : parseUsize s with e | w
      · rw [hp] at h
        exact absurd h (by simp [Except.map])
      · rw [hp] at h
        have hw : w = v := by
          simpa [Except.map] using h
        exact hw ▸ parseUsize_ok_le s w hp

/-- Only the `pass_through` literal can produce `PassThrough`. -/
theorem from_str_passThrough (s : List Char)
    (h : Speed.from_str s = .ok .PassThrough) : s = "pass_through".data := by
  by_contra hpass
  rw [Speed.from_str, if_neg hpass] at h
  by_cases hb : endsWithBps s
  · rw [if_pos hb] at h
    rcases hp : parseBpsPath s with e | w <;> rw [hp] at h <;>
      simp [Except.map] at h
  · rw [if_neg hb] at h
    rcases hp : parseUsize s with e | w <;> rw [hp] at h <;>
      simp [Except.map] at h

/-- A non-digit anywhere after the optional leading `'+'` makes
`usize::from_str` fail. -/
theorem parseUsize_not_ok_of_nondigit (cs : List Char)
    (hnd : ∃ c ∈ dropLeadingPlus cs, c.isDigit = false) :
    ∀ v, parseUsize cs ≠ .ok v := by
  intro v h
  obtain ⟨c, hc, hcd⟩ := hnd
  rcases cs with _ | ⟨a, rest⟩
  · simp [dropLeadingPlus] at hc
  · rw [parseUsize] at h
    by_cases hp : a = '+'
    · rw [if_pos hp] at h
      by_cases hr : rest = []
      · rw [if_pos hr] at h
        exact absurd h (by simp)
      · rw [if_neg hr] at h
        have hmem : c ∈ rest := by
          have hd : dropLeadingPlus (a :: rest) = rest := by
            simp [dropLeadingPlus, if_pos hp]
          rwa [hd] at hc
        have := parseUsizeCore_ok_digits rest 0 v h c hmem
        rw [this] at hcd
        exact absurd hcd (by simp)
    · rw [if_neg hp] at h
      by_cases hm : a = '-'
      · rw [if_pos hm] at h
        exact absurd h (by simp)
      · rw [if_neg hm] at h
        have hmem : c ∈ a :: rest := by
          have hd : dropLeadingPlus (a :: rest) = a :: rest := by
            simp [dropLeadingPlus, if_neg hp]
          rwa [hd] at hc
        have := parseUsizeCore_ok_digits _ 0 v h c hmem
        rw [this] at hcd
        exact absurd hcd (by simp)

theorem parseScaled_error_of_nondigit (rem : List Char) (k : Nat)
    (hnd : ∃ c ∈ dropLeadingPlus rem, c.isDigit = false) :
    ∃ e, parseScaled rem k = .error e := by
  rcases hp : parseUsize rem with e | w
  · exact ⟨e, by simp [parseScaled, hp]⟩
  · exact absurd hp (parseUsize_not_ok_of_nondigit rem hnd w)

/-- A non-digit (apart from an optional single leading `'+'`) in the
numeric remainder makes the whole parse fail. -/
theorem from_str_err_of_nondigit (s rem : List Char)
    (hrem : numericRemainder s = some rem)
    (hnd : ∃ c ∈ dropLeadingPlus rem, c.isDigit = false) :
    isErr (Speed.from_str s) = true := by
  rw [numericRemainder] at hrem
  by_cases hpass : s = "pass_through".data
  · rw [if_pos hpass] at hrem
    exact absurd hrem (by simp)
  · rw [if_neg hpass] at hrem
    rw [Speed.from_str, if_neg hpass]
    by_cases hb : endsWithBps s = true
    · rw [if_pos hb] at hrem
      rw [if_pos hb]
      rcases hl : (s.take (s.length - 3)).getLast? with _ | c
      · simp only [hl] at hrem
        exact absurd hrem (by simp)
      · rcases hs : scaleOf c with _ | k
        · simp only [hl, hs, Option.some.injEq] at hrem
          obtain ⟨e, he⟩ :=
            parseScaled_error_of_nondigit _ 1 (hrem ▸ hnd)
          simp only [parseBpsPath, hl, hs, he]
          rfl
        · simp only [hl, hs, Option.some.injEq] at hrem
          obtain ⟨e, he⟩ :=
            parseScaled_error_of_nondigit _ k (hrem ▸ hnd)
          simp only [parseBpsPath, hl, hs, he]
          rfl
    · rw [if_neg hb] at hrem
      rw [if_neg hb]
      have hsr : s = rem := Option.some.inj hrem
      rcases hp : parseUsize s with e | w
      · simp [hp, isErr, Except.map]
      · exact absurd hp
          (parseUsize_not_ok_of_nondigit s (hsr ▸ hnd) w)

/-- C1: the suffix grammar of `Speed::parse`: `"1024"` and `"1024Bps"` give
`Bps 1024` (the character before the suffix is `'4'`, not a scale letter),
`"1024KBps"` gives `Bps 1048576`, `"1024MBps"` gives `Bps 1073741824`, and
`"1024GBps"` gives `Bps 1099511627776 = 2^40`, which is within the 64-bit
`usize` range and hence not an overflow error. -/
theorem speed_parse_suffix_grammar :
    Speed.from_str "1024".data = .ok (.Bps 1024)
    ∧ Speed.from_str "1024Bps".data = .ok (.Bps 1024)
    ∧ Speed.from_str "1024KBps".data = .ok (.Bps 1048576)
    ∧ Speed.from_str "1024MBps".data = .ok (.Bps 1073741824)
    ∧ Speed.from_str "1024GBps".data = .ok (.Bps 1099511627776) := by
  decide

/-- C2: for every `n` and scale suffix `K`/`M`/`G`, if `n` times the scale
exceeds `usize::MAX` then parsing the decimal string for `n` with that
suffix fails (the `checked_mul` reports "overflow" when `n` itself fits,
and the inner integer parse fails when it does not); and a parsed `Bps`
value never holds a wrapped, truncated or saturated product — every value
the parser returns is at most `usize::MAX`. -/
theorem speed_parse_overflow (n k : Nat) (c : Char)
    (hk : scaleOf c = some k) (hov : USIZE_MAX < n * k) :
    isErr (Speed.from_str (natToDecimal n ++ [c] ++ "Bps".data)) = true
    ∧ ∀ s v, Speed.from_str s = .ok (.Bps v) → v ≤ USIZE_MAX := by
  refine ⟨?_, fun s v h => from_str_ok_le s v h⟩
  rw [from_str_scaled n k c hk]
  by_cases hn : n ≤ USIZE_MAX
  · rw [if_pos hn, if_neg (by omega : ¬n * k ≤ USIZE_MAX)]
    rfl
  · rw [if_neg hn]
    rfl

theorem speed_parse_overflow_witness :
    isErr (Speed.from_str (natToDecimal (2 ^ 60) ++ ['K'] ++ "Bps".data)) = true
    ∧ ∀ s v, Speed.from_str s = .ok (.Bps v) → v ≤ USIZE_MAX :=
  speed_parse_overflow (2 ^ 60) (2 ^ 10) 'K' (by decide) (by decide)

/-- C3: `Speed::parse "pass_through"` is `PassThrough`, and no other input
string — any other casing or spelling included — ever produces the
`PassThrough` variant. -/
theorem speed_parse_pass_through :
    Speed.from_str "pass_through".data = .ok .PassThrough
    ∧ ∀ s : List Char, s ≠ "pass_through".data →
        Speed.from_str s ≠ .ok .PassThrough :=
  ⟨by decide, fun s hs h => hs (from_str_passThrough s h)⟩

theorem speed_parse_pass_through_witness :
    Speed.from_str "pass_through".data = .ok .PassThrough
    ∧ Speed.from_str "Pass_Through".data ≠ .ok .PassThrough :=
  ⟨speed_parse_pass_through.1,
    speed_parse_pass_through.2 "Pass_Through".data (by decide)⟩

/-- C4: `Speed::format` is a strict-less-than threshold ladder, first match
wins: `PassThrough` prints `"PassThrough"`; below `2^10` the integer with
`"Bps"` (so `0 ↦ "0Bps"`, `1023 ↦ "1023Bps"`, `1024 ↦ "1KBps"`); between
`2^10` and `2^20` the value divided by `2^10` with `"KBps"` (stated
exactly where the quotient is a whole number, and as the suffix shape in
general); between `2^20` and `2^30` division by `2^20` with `"MBps"`; from
`2^30` on division by `2^30` with `"GBps"`. -/
theorem speed_format_ladder :
    Speed.format .PassThrough = "PassThrough".data
    ∧ Speed.format (.Bps 0) = "0Bps".data
    ∧ Speed.format (.Bps 1023) = "1023Bps".data
    ∧ Speed.format (.Bps 1024) = "1KBps".data
    ∧ (∀ bps : Nat, bps < 2 ^ 10 →
        Speed.format (.Bps bps) = natToDecimal bps ++ "Bps".data)
    ∧ (∀ bps : Nat, 2 ^ 10 ≤ bps → bps < 2 ^ 20 → 2 ^ 10 ∣ bps →
        Speed.format (.Bps bps) = natToDecimal (bps / 2 ^ 10) ++ "KBps".data)
    ∧ (∀ bps : Nat, 2 ^ 10 ≤ bps → bps < 2 ^ 20 →
        ∃ q, Speed.format (.Bps bps) = q ++ "KBps".data)
    ∧ (∀ bps : Nat, 2 ^ 20 ≤ bps → bps < 2 ^ 30 →
        ∃ q, Speed.format (.Bps bps) = q ++ "MBps".data)
    ∧ (∀ bps : Nat, 2 ^ 30 ≤ bps →
        ∃ q, Speed.format (.Bps bps) = q ++ "GBps".data) := by
  refine ⟨by decide, by decide, by decide, by decide, ?_, ?_, ?_, ?_, ?_⟩
  · intro bps h
    rw [Speed.format, if_pos h]
  · intro bps h1 h2 hdvd
    have hmod : bps % 2 ^ 10 = 0 := Nat.mod_eq_zero_of_dvd hdvd
    rw [Speed.format, if_neg (by omega), if_pos h2]
    simp only [renderDyadic, hmod, if_pos]
  · intro bps h1 h2
    rw [Speed.format, if_neg (by omega), if_pos h2]
    exact ⟨_, rfl⟩
  · intro bps h1 h2
    rw [Speed.format, if_neg (by omega), if_neg (by omega), if_pos h2]
    exact ⟨_, rfl⟩
  · intro bps h1
    rw [Speed.format, if_neg (by omega), if_neg (by omega), if_neg (by omega)]
    exact ⟨_, rfl⟩

theorem speed_format_ladder_witness :
    Speed.format (.Bps 500) = natToDecimal 500 ++ "Bps".data
    ∧ Speed.format (.Bps 2048) = natToDecimal 2 ++ "KBps".data
    ∧ (∃ q, Speed.format (.Bps 1500) = q ++ "KBps".data)
    ∧ (∃ q, Speed.format (.Bps (2 ^ 25)) = q ++ "MBps".data)
    ∧ (∃ q, Speed.format (.Bps (2 ^ 35)) = q ++ "GBps".data) :=
  ⟨speed_format_ladder.2.2.2.2.1 500 (by decide),
    (speed_format_ladder.2.2.2.2.2.1 2048 (by decide) (by decide)
      (by decide)).trans (by decide),
    speed_format_ladder.2.2.2.2.2.2.1 1500 (by decide) (by decide),
    speed_format_ladder.2.2.2.2.2.2.2.1 (2 ^ 25) (by decide) (by decide),
    speed_format_ladder.2.2.2.2.2.2.2.2 (2 ^ 35) (by decide)⟩

/-- C5: the empty string, a garbage string and the bare suffix `"Bps"` all
fail to parse; `"Bps"` in particular leaves an empty body after suffix
stripping and yields the "Invalid speed" error, not a zero value. -/
theorem speed_parse_failures :
    isErr (Speed.from_str "".data) = true
    ∧ Speed.from_str "".data = .error "cannot parse integer from empty string"
    ∧ isErr (Speed.from_str "alskjaslkdfjhasjdhfb".data) = true
    ∧ Speed.from_str "Bps".data = .error "Invalid speed"
    ∧ ∀ v : Nat, Speed.from_str "Bps".data ≠ .ok (.Bps v) := by
  refine ⟨by decide, by decide, by decide, by decide, ?_⟩
  intro v h
  rw [(by decide : Speed.from_str "Bps".data = .error "Invalid speed")] at h
  exact absurd h (by simp)

theorem speed_parse_failures_witness :
    Speed.from_str "Bps".data ≠ .ok (.Bps 0) :=
  speed_parse_failures.2.2.2.2 0

/-- C6 counterexample: the numeric remainder of `"+10"` is `"+10"` itself,
which contains the non-digit `'+'`, yet `Speed::parse` succeeds with
`Bps 10` — Rust's `usize::from_str` accepts an optional leading `'+'`
sign, so the claim as stated is false. -/
theorem speed_parse_nondigit_cex :
    numericRemainder "+10".data = some "+10".data
    ∧ ('+' ∈ "+10".data ∧ '+'.isDigit = false)
    ∧ Speed.from_str "+10".data = .ok (.Bps 10) := by
  decide

/-- C6 (amended): for every input whose numeric remainder (after suffix and
scale-letter stripping per the grammar) contains, beyond an optional single
leading `'+'` sign, a negative sign or any non-digit character,
`Speed::parse` returns a parse error (wrapping the numeric-parse failure),
and in particular never yields a `Bps` value. -/
theorem speed_parse_nondigit (s rem : List Char)
    (hrem : numericRemainder s = some rem)
    (hnd : ∃ c ∈ dropLeadingPlus rem, c.isDigit = false) :
    isErr (Speed.from_str s) = true
    ∧ ∀ v, Speed.from_str s ≠ .ok (.Bps v) := by
  have h1 := from_str_err_of_nondigit s rem hrem hnd
  refine ⟨h1, fun v hv => ?_⟩
  rw [hv] at h1
  exact absurd h1 (by simp [isErr])

theorem speed_parse_nondigit_witness :
    isErr (Speed.from_str "12x".data) = true
    ∧ ∀ v, Speed.from_str "12x".data ≠ .ok (.Bps v) :=
  speed_parse_nondigit "12x".data "12x".data (by decide)
    ⟨'x', by decide, by decide⟩

/-- C7: round-trip fails at `Bps 1500`: formatting gives the fractional
string `"1.46484375KBps"`, whose reparse hits the decimal point (the
grammar has no fractional numbers) and fails, so `parse (format x)` is not
`Ok x` for `x = Bps 1500`. -/
theorem speed_roundtrip_asymmetry :
    Speed.format (.Bps 1500) = "1.46484375KBps".data
    ∧ isErr (Speed.from_str (Speed.format (.Bps 1500))) = true
    ∧ Speed.from_str (Speed.format (.Bps 1500)) ≠ .ok (.Bps 1500) := by
  refine ⟨by decide, by decide, ?_⟩
  intro h
  rw [(by decide : Speed.from_str (Speed.format (.Bps 1500)) =
    .error "invalid digit found in string")] at h
  exact absurd h (by simp)

theorem speed_roundtrip_asymmetry_witness :
    isErr (Speed.from_str (Speed.format (.Bps 1500))) = true :=
  speed_roundtrip_asymmetry.2.1

/-- C8: the default `Config` is 600 s duration, 1800 s frequency,
operations `[Read, Write]` in that order and `PassThrough` speed, and its
Display string has the exact `Config {...}` shape with the operations
joined by `":"`, containing `"Operations: Read:Write"` and
`"Speed: PassThrough"`. -/
theorem config_default_display :
    Config.default.duration = 600
    ∧ Config.default.frequency = 1800
    ∧ Config.default.operations = [.Read, .Write]
    ∧ Config.default.speed = .PassThrough
    ∧ Config.display Config.default =
        "Config \x7bDuration: 600sec, Frequency: 1800sec, Operations: Read:Write, Speed: PassThrough\x7d".data
    ∧ (∃ a b, Config.display Config.default =
        a ++ "Operations: Read:Write".data ++ b)
    ∧ (∃ a b, Config.display Config.default =
        a ++ "Speed: PassThrough".data ++ b) := by
  refine ⟨rfl, rfl, rfl, rfl, by decide, ?_, ?_⟩
  · exact ⟨"Config \x7bDuration: 600sec, Frequency: 1800sec, ".data,
      ", Speed: PassThrough\x7d".data, by decide⟩
  · exact ⟨"Config \x7bDuration: 600sec, Frequency: 1800sec, Operations: Read:Write, ".data,
      "\x7d".data, by decide⟩

/-- C9: formatting is total and never fails: `Speed::format` produces a
(nonempty) string for every `Speed` value — every `Bps n` included, with
no magnitude restriction — and `Config`'s Display likewise for every
`Config`, the default included; only `Speed::parse` returns a failure
value. -/
theorem format_display_total :
    (∀ sp : Speed, Speed.format sp ≠ [])
    ∧ (∀ c : Config, Config.display c ≠ [])
    ∧ Config.display Config.default ≠ [] := by
  have hspeed : ∀ sp : Speed, Speed.format sp ≠ [] := by
    intro sp
    cases sp with
    | Bps bps =>
      rw [Speed.format]
      split_ifs <;> intro h <;>
        exact absurd (List.append_eq_nil.mp h).2 (by decide)
    | PassThrough => decide
  have hconf : ∀ c : Config, Config.display c ≠ [] := by
    intro c h
    exact absurd (List.append_eq_nil.mp h).2 (by decide)
  exact ⟨hspeed, hconf, hconf Config.default⟩

theorem format_display_total_witness :
    Speed.format (.Bps (2 ^ 64 - 1)) ≠ [] :=
  format_display_total.1 (.Bps (2 ^ 64 - 1))

set_option maxRecDepth 100000 in
/-- C10: on the unsuffixed range the round-trip does hold: for every
`n < 2^10`, formatting gives the decimal digits of `n` followed by
`"Bps"`, and reparsing strips the suffix, sees a trailing digit (not a
scale letter) and recovers exactly `Bps n`. -/
theorem speed_roundtrip_small (n : Nat) (h : n < 2 ^ 10) :
    Speed.from_str (Speed.format (.Bps n)) = .ok (.Bps n) := by
  revert n
  decide

theorem speed_roundtrip_small_witness :
    7 < 2 ^ 10 ∧ Speed.from_str (Speed.format (.Bps 7)) = .ok (.Bps 7) :=
  ⟨by decide, speed_roundtrip_small 7 (by decide)⟩
